import Mathlib

set_option maxHeartbeats 1000000

/-!
Shallow embedding of the synchronization script
`src/github-action/update-playlists.mjs`.

Conventions used throughout:
* JS numbers that hold item counts are modelled as `Nat`.
* JS strings are `String`; the `String(x || '')` coercions of the script are
  modelled by taking the fields to be plain strings.
* The remote HTTP surface is modelled by an oracle `Nat → Outcome` giving the
  outcome of the n-th fetch attempt of one logical request, and by
  page lists for the paginated member walk.
* File contents are modelled as parsed JSON values (lists of records); since
  `JSON.stringify` is deterministic on a given value, equality of the parsed
  models corresponds to byte equality of the written files.
-/

/-- State of the `ApiKeyManager` class (update-playlists.mjs, lines 25-62):
the ordered pool of API keys, the index of the active key, and the set of
indices marked quota-exhausted (a JS `Set` of integers). -/
structure ApiKeyManager where
  keys : List String
  currentIndex : Nat
  exhaustedKeys : Finset Nat
deriving DecidableEq

/-- The `currentKey` getter: `this.keys[this.currentIndex]` (an out-of-range
access is modelled by the default `""`). -/
def ApiKeyManager.currentKey (km : ApiKeyManager) : String :=
  km.keys.getD km.currentIndex ""

/-- The `allExhausted` getter: `this.exhaustedKeys.size >= this.keys.length`. -/
def ApiKeyManager.allExhausted (km : ApiKeyManager) : Bool :=
  decide (km.keys.length ≤ km.exhaustedKeys.card)

/-- The scan performed by the `for` loop of `rotateToNext` (lines 52-59):
starting at loop counter `i` with `fuel` iterations remaining, return the
first candidate index `(cur + 1 + i) % len` that is not exhausted. -/
def rotScan (exh : Finset Nat) (cur len : Nat) : Nat → Nat → Option Nat
  | _, 0 => none
  | i, fuel + 1 =>
    if (cur + 1 + i) % len ∈ exh then rotScan exh cur len (i + 1) fuel
    else some ((cur + 1 + i) % len)

/-- `rotateToNext()` (lines 51-61): circularly scan for the first
non-exhausted index starting just after the current one; on success move
there and return `true`, otherwise return `false` leaving the state
unchanged. -/
def ApiKeyManager.rotateToNext (km : ApiKeyManager) : Bool × ApiKeyManager :=
  match rotScan km.exhaustedKeys km.currentIndex km.keys.length 0 km.keys.length with
  | some j => (true, { km with currentIndex := j })
  | none => (false, km)

/-- `markExhausted()` (lines 46-49): add the current index to the exhausted
set, then rotate; returns whether a usable key remains. -/
def ApiKeyManager.markExhausted (km : ApiKeyManager) : Bool × ApiKeyManager :=
  ApiKeyManager.rotateToNext
    { km with exhaustedKeys := insert km.currentIndex km.exhaustedKeys }

/-- A freshly constructed manager over a given (already parsed) key pool:
`currentIndex = 0`, empty exhausted set (constructor, lines 26-36). -/
def freshManager (keys : List String) : ApiKeyManager :=
  { keys := keys, currentIndex := 0, exhaustedKeys := ∅ }

/-- Apply `markExhausted` (one quota-exceeded signal) `n` times in a row,
keeping only the resulting state. -/
def iterMark : Nat → ApiKeyManager → ApiKeyManager
  | 0, km => km
  | n + 1, km => iterMark n (km.markExhausted).2

/-- One of the two mutating operations of the rotator. -/
inductive RotOp
  | mark
  | rot
deriving DecidableEq

/-- Apply one rotator operation, keeping the resulting state. -/
def applyOp (km : ApiKeyManager) : RotOp → ApiKeyManager
  | .mark => (km.markExhausted).2
  | .rot => (km.rotateToNext).2

/-- Apply a sequence of rotator operations from left to right. -/
def applyOps (ops : List RotOp) (km : ApiKeyManager) : ApiKeyManager :=
  ops.foldl applyOp km

/-- Outcome of one `fetch` attempt inside `youtubeRequest`: a successful JSON
payload (abstracted to a `Nat` tag), a 403 response whose reason is
`quotaExceeded`/`dailyLimitExceeded`, or any other failure carrying the error
message that the script would throw (`API Error <status>: <text>`, a network
error, a JSON parse error, ...). -/
inductive Outcome
  | ok (result : Nat)
  | quota
  | other (e : String)

/-- Result of one logical `youtubeRequest` call: the returned payload or the
thrown error message, the number of remote fetches actually performed, the
key index used by each fetch in order, and the final manager state. -/
structure ReqResult where
  result : Except String Nat
  calls : Nat
  usedIndices : List Nat
  km : ApiKeyManager

/-- The retry loop of `youtubeRequest` (lines 64-101), with
`fuel = maxRetries - attempt` remaining iterations.  Each iteration: fail
immediately with `ALL_KEYS_EXHAUSTED` if the pool is exhausted; otherwise
perform one fetch (consuming the oracle at the current attempt number).  A
success returns; a quota signal marks the current key exhausted and rotates,
failing with `ALL_KEYS_EXHAUSTED` when no key remains; any other error is
rethrown on the last attempt and swallowed (retried, same key) otherwise. -/
def requestLoop (oracle : Nat → Outcome) : Nat → Nat → ApiKeyManager → ReqResult
  | 0, _, km => ⟨.error "Unexpected API request failure", 0, [], km⟩
  | fuel + 1, attempt, km =>
    if km.allExhausted then ⟨.error "ALL_KEYS_EXHAUSTED", 0, [], km⟩
    else
      match oracle attempt with
      | .ok v => ⟨.ok v, 1, [km.currentIndex], km⟩
      | .quota =>
        let r := km.markExhausted
        if r.1 then
          let rest := requestLoop oracle fuel (attempt + 1) r.2
          ⟨rest.result, rest.calls + 1, km.currentIndex :: rest.usedIndices, rest.km⟩
        else ⟨.error "ALL_KEYS_EXHAUSTED", 1, [km.currentIndex], r.2⟩
      | .other e =>
        if fuel = 0 then ⟨.error e, 1, [km.currentIndex], km⟩
        else
          let rest := requestLoop oracle fuel (attempt + 1) km
          ⟨rest.result, rest.calls + 1, km.currentIndex :: rest.usedIndices, rest.km⟩

/-- `youtubeRequest(keyManager, endpoint, params)` with
`maxRetries = keyManager.keys.length` (line 65). -/
def youtubeRequest (oracle : Nat → Outcome) (km : ApiKeyManager) : ReqResult :=
  requestLoop oracle km.keys.length 0 km

/-- A remote playlist snapshot as built by `getBatchedRemoteSnapshots`
(lines 258-266): id, title, high thumbnail URL, channel id, item count. -/
structure RemoteSnapshot where
  id : String
  title : String
  thumbnail : String
  channelId : String
  videoCount : Nat
deriving DecidableEq

/-- The change/full decision pair computed per playlist by the detection
loop of `main` (`countChanged`/`metadataChanged`, lines 452-457). -/
structure ChangeDecision where
  changed : Bool
  full : Bool
deriving DecidableEq

/-- The change-detection step of `main` (lines 452-471): `countChanged`
compares the remote item count with the locally stored count;
`metadataChanged` compares the stored title and thumbnail with the remote
ones; an entity is flagged (`changed`) when either differs, and a full
member re-fetch (`full`, consumed at line 511 as `pl.countChanged`) happens
exactly when the count differs. -/
def detectChange (localCount : Nat) (existingTitle existingThumbnail : String)
    (remote : RemoteSnapshot) : ChangeDecision :=
  let countChanged := remote.videoCount != localCount
  let metadataChanged :=
    (existingTitle != remote.title) || (existingThumbnail != remote.thumbnail)
  { changed := countChanged || metadataChanged, full := countChanged }

/-- A persisted member item (video) as pushed by `fetchPlaylistVideos`
(lines 312-319). -/
structure Video where
  id : String
  title : String
  description : String
  date : String
  thumbnail : String
  url : String
deriving DecidableEq

/-- A raw `playlistItems` element before filtering: the two places the video
id may live (`contentDetails.videoId`, `snippet.resourceId.videoId`, either
possibly absent), and the snippet fields after their `|| ''` defaults. -/
structure RawItem where
  cdVideoId : Option String
  srVideoId : Option String
  title : String
  description : String
  publishedAt : String
  thumbnail : String
deriving DecidableEq

/-- JS truthiness of an optional string: `undefined` and `''` are falsy. -/
def jsTruthyStr : Option String → Bool
  | none => false
  | some s => !(s == "")

/-- JS `a || b` on optional strings. -/
def jsOrStr (a b : Option String) : Option String :=
  if jsTruthyStr a then a else b

/-- Substring test on character lists (JS `String.prototype.includes`). -/
def containsSeq (needle : List Char) : List Char → Bool
  | [] => needle.isEmpty
  | c :: rest => needle.isPrefixOf (c :: rest) || containsSeq needle rest

/-- JS `hay.includes(needle)` on strings. -/
def strIncludes (hay needle : String) : Bool :=
  containsSeq needle.data hay.data

/-- The drop condition of `fetchPlaylistVideos` (lines 302-308): the title
is one of the four removed-video sentinels, or the item has no thumbnail and
its lowercased title contains `"private"`. -/
def isRemovedVideo (title thumbnail : String) : Bool :=
  title == "Private video" ||
  title == "Deleted video" ||
  title == "فيديو خاص" ||
  title == "فيديو محذوف" ||
  (thumbnail == "" && strIncludes title.toLower "private")

/-- Processing of one raw item by the page loop of `fetchPlaylistVideos`
(lines 293-320): resolve the video id (`contentDetails?.videoId ||
snippet?.resourceId?.videoId`, skip when falsy), drop removed/private
sentinels, otherwise build the persisted `Video` record. -/
def processItem (item : RawItem) : Option Video :=
  match jsOrStr item.cdVideoId item.srVideoId with
  | none => none
  | some vid =>
    if vid == "" then none
    else if isRemovedVideo item.title item.thumbnail then none
    else
      some { id := vid, title := item.title, description := item.description,
             date := item.publishedAt, thumbnail := item.thumbnail,
             url := "https://www.youtube.com/watch?v=" ++ vid }

/-- `fetchPlaylistVideos` (lines 277-326) over an abstract pagination: the
remote pages are given as a list of raw-item pages; the walk appends the
surviving videos of every page in order. -/
def collectVideos (pages : List (List RawItem)) : List Video :=
  (pages.map (fun items => items.filterMap processItem)).flatten

/-- A persisted playlist file (`data/playlists/<id>.json`) as read and
written by `main` (lines 506-528). -/
structure StoredPlaylist where
  id : String
  title : String
  thumbnail : String
  videoCount : Nat
  channelId : String
  categories : List String
  videos : List Video
deriving DecidableEq

/-- Construction of `updatedPlaylist` in the update loop of `main`
(lines 508-526): on the full path (`countChanged`) the member list is
re-fetched and the stored count is `videos.length`; on the metadata-only
path the previously stored member list is kept and the stored count is the
remote-reported `details.videoCount`. -/
def buildUpdatedPlaylist (existing : StoredPlaylist) (details : RemoteSnapshot)
    (countChanged : Bool) (pages : List (List RawItem)) : StoredPlaylist :=
  let videos := if countChanged then collectVideos pages else existing.videos
  { id := existing.id, title := details.title, thumbnail := details.thumbnail,
    videoCount := if countChanged then videos.length else details.videoCount,
    channelId := existing.channelId, categories := existing.categories,
    videos := videos }

/-- A denormalized index entry as built by `updateIndexFiles`
(lines 348-357). -/
structure IndexEntry where
  id : String
  title : String
  thumbnail : String
  videoCount : Nat
  channelId : String
  channelTitle : String
  categories : List String
  path : String
deriving DecidableEq

/-- One record of `channels.json` (only the fields `updateIndexFiles`
reads). -/
structure ChannelRec where
  id : String
  title : String
deriving DecidableEq

/-- A per-channel index file `ch_<channelId>.json`; `playlists = none`
models a file whose `playlists` field is not an array (line 381). -/
structure ChannelFile where
  playlists : Option (List IndexEntry)
deriving DecidableEq

/-- The slice of the on-disk store touched by `updateIndexFiles`: the
channels file, the main and sub category index files (by category name), the
per-channel index files (by channel id), and the unified playlists index.
`none` models a missing file; file contents are the parsed JSON values. -/
@[ext]
structure FsState where
  channelsFile : Option (List ChannelRec)
  categoriesMain : String → Option (List IndexEntry)
  categoriesSub : String → Option (List IndexEntry)
  channelFiles : String → Option ChannelFile
  playlistsIndex : Option (List IndexEntry)

/-- The channel-title lookup of `updateIndexFiles` (lines 337-346):
`'Unknown'` when the channels file is missing or has no matching record. -/
def lookupChannelTitle (chans : Option (List ChannelRec)) (chId : String) : String :=
  match chans with
  | none => "Unknown"
  | some cs =>
    match cs.find? (fun c => c.id == chId) with
    | some c => c.title
    | none => "Unknown"

/-- The `indexEntry` projection built by `updateIndexFiles`
(lines 348-357). -/
def mkIndexEntry (pl : StoredPlaylist) (fs : FsState) : IndexEntry :=
  { id := pl.id, title := pl.title, thumbnail := pl.thumbnail,
    videoCount := pl.videoCount, channelId := pl.channelId,
    channelTitle := lookupChannelTitle fs.channelsFile pl.channelId,
    categories := pl.categories,
    path := "data/playlists/" ++ pl.id ++ ".json" }

/-- The upsert applied to every index array (`findIndex` on the id, replace
the first match in place, else `push`; lines 365-370, 382-387, 398-403). -/
def upsert (e : IndexEntry) : List IndexEntry → List IndexEntry
  | [] => [e]
  | p :: rest => if p.id == e.id then e :: rest else p :: upsert e rest

/-- Point update of a name-indexed file map (the effect of one
`fs.writeFileSync` on our file-system model). -/
def setFileMap {α : Type} (m : String → Option α) (k : String) (v : α) :
    String → Option α :=
  fun x => if x = k then some v else m x

/-- One iteration of the category loop of `updateIndexFiles`
(lines 359-375), including `findCategoryFile` (lines 328-334): the main
category file wins over the sub one; a category with no file is skipped. -/
def updateCategory (e : IndexEntry) (fs : FsState) (cat : String) : FsState :=
  match fs.categoriesMain cat with
  | some arr =>
    { fs with categoriesMain := setFileMap fs.categoriesMain cat (upsert e arr) }
  | none =>
    match fs.categoriesSub cat with
    | some arr =>
      { fs with categoriesSub := setFileMap fs.categoriesSub cat (upsert e arr) }
    | none => fs

/-- The channel-file step of `updateIndexFiles` (lines 377-393): if the file
`ch_<channelId>.json` exists and its `playlists` field is an array, upsert
the projection into it. -/
def updateChannelIndex (e : IndexEntry) (chId : String) (fs : FsState) : FsState :=
  match fs.channelFiles chId with
  | some ch =>
    match ch.playlists with
    | some arr =>
      let ch2 : ChannelFile := { ch with playlists := some (upsert e arr) }
      { fs with channelFiles := setFileMap fs.channelFiles chId ch2 }
    | none => fs
  | none => fs

/-- The unified-index step of `updateIndexFiles` (lines 395-408): if
`playlists_index.json` exists, upsert the projection into it. -/
def updateUnifiedIndex (e : IndexEntry) (fs : FsState) : FsState :=
  match fs.playlistsIndex with
  | some arr => { fs with playlistsIndex := some (upsert e arr) }
  | none => fs

/-- `updateIndexFiles(playlist)` (lines 336-409): build the projection, then
upsert it into each existing category file named by the playlist's
categories, into the channel file's `playlists` array when that file exists
and the field is an array, and into the unified index when it exists. -/
def updateIndexFiles (pl : StoredPlaylist) (fs : FsState) : FsState :=
  let e := mkIndexEntry pl fs
  updateUnifiedIndex e
    (updateChannelIndex e pl.channelId (pl.categories.foldl (updateCategory e) fs))

/-- Abstracted outcome of one iteration of the update loop of `main`
(lines 501-546): the whole try-body (read, fetch, write, index sync) either
succeeds, throws `ALL_KEYS_EXHAUSTED`, or throws some other error. -/
inductive UpdateOutcome
  | success
  | exhausted
  | failure
deriving DecidableEq

/-- The update loop of `main` (lines 501-546) over the per-entity outcomes,
returning `(successCount, failCount, attempted)`: a success increments
`successCount`, any other error increments `failCount` and continues, and
`ALL_KEYS_EXHAUSTED` breaks out of the loop immediately (the entity that
threw counts as attempted, later entities are never reached). -/
def updateLoop : List UpdateOutcome → Nat × Nat × Nat
  | [] => (0, 0, 0)
  | .success :: rest =>
    let r := updateLoop rest
    (r.1 + 1, r.2.1, r.2.2 + 1)
  | .failure :: rest =>
    let r := updateLoop rest
    (r.1, r.2.1 + 1, r.2.2 + 1)
  | .exhausted :: _ => (0, 0, 1)

/-- The run summary written unconditionally after the update loop
(lines 548-577). -/
structure RunReport where
  total : Nat
  updated : Nat
  failed : Nat
  attempted : Nat
deriving DecidableEq

/-- The reporting phase: whatever way the update loop ended, `main` falls
through to the summary/log block (lines 548-577). -/
def runUpdatePhase (outcomes : List UpdateOutcome) : RunReport :=
  let r := updateLoop outcomes
  { total := outcomes.length, updated := r.1, failed := r.2.1, attempted := r.2.2 }

/-- The process exit code of a run that reached the scan phase:
`process.exit(1)` when the scan phase itself dies of credential exhaustion
(lines 429-438), otherwise `exit(1)` iff `failCount > 0 && successCount
=== 0` at the end of `main` (lines 579-581), else a normal exit 0 (this also
covers the early returns with nothing to do, where `outcomes = []`). -/
def mainExitCode (scanExhausted : Bool) (outcomes : List UpdateOutcome) : Nat :=
  if scanExhausted then 1
  else
    let r := updateLoop outcomes
    if 0 < r.2.1 ∧ r.1 = 0 then 1 else 0

/-- Concrete playlist used by counterexamples: no categories, channel `C1`,
one projection target (the unified index). -/
def demoPlaylist : StoredPlaylist :=
  { id := "P1", title := "T", thumbnail := "th", videoCount := 3,
    channelId := "C1", categories := [], videos := [] }

/-- Concrete file-system state whose unified index exists but does not
reference `P1`. -/
def demoFs : FsState :=
  { channelsFile := none,
    categoriesMain := fun _ => none,
    categoriesSub := fun _ => none,
    channelFiles := fun _ => none,
    playlistsIndex := some [] }

/-- A stale index entry for `P1` (old title/count) used to populate index
files in witnesses. -/
def staleEntry : IndexEntry :=
  { id := "P1", title := "Old", thumbnail := "oldth", videoCount := 1,
    channelId := "C1", channelTitle := "Unknown", categories := ["prog"],
    path := "data/playlists/P1.json" }

/-- Concrete playlist with one category, used by the amended-C4 witness. -/
def demoPlaylist2 : StoredPlaylist :=
  { id := "P1", title := "T", thumbnail := "th", videoCount := 3,
    channelId := "C1", categories := ["prog"], videos := [] }

/-- Concrete file-system state with a main category file for `prog` that
already references `P1`. -/
def demoFs2 : FsState :=
  { channelsFile := none,
    categoriesMain := fun c => if c = "prog" then some [staleEntry] else none,
    categoriesSub := fun _ => none,
    channelFiles := fun _ => none,
    playlistsIndex := some [] }

/-- A raw member item that survives filtering. -/
def demoGoodItem : RawItem :=
  { cdVideoId := some "v1", srVideoId := none, title := "Lesson 1",
    description := "d", publishedAt := "2024-01-01", thumbnail := "tn" }

/-- A raw member item titled exactly `Deleted video` (with a thumbnail and a
valid id, so only the sentinel rule can drop it). -/
def demoDeletedItem : RawItem :=
  { cdVideoId := some "v2", srVideoId := none, title := "Deleted video",
    description := "d", publishedAt := "2024-01-01", thumbnail := "tn" }

theorem rotScan_eq_none {exh : Finset Nat} {cur len : Nat} :
    ∀ fuel i, (rotScan exh cur len i fuel = none ↔
      ∀ d, d < fuel → (cur + 1 + (i + d)) % len ∈ exh) := by
  intro fuel
  induction fuel with
  | zero => intro i; simp [rotScan]
  | succ f ih =>
    intro i
    by_cases h : (cur + 1 + i) % len ∈ exh
    · rw [rotScan, if_pos h, ih]
      constructor
      · intro hall d hd
        cases d with
        | zero => simpa using h
        | succ d' =>
          have hh := hall d' (by omega)
          have heq : i + 1 + d' = i + (d' + 1) := by omega
          rw [heq] at hh
          exact hh
      · intro hall d hd
        have hh := hall (d + 1) (by omega)
        have heq : i + (d + 1) = i + 1 + d := by omega
        rw [heq] at hh
        exact hh
    · rw [rotScan, if_neg h]
      simp only [reduceCtorEq, false_iff, not_forall]
      refine ⟨0, ?_⟩
      simpa using h

theorem rotScan_eq_some {exh : Finset Nat} {cur len : Nat} :
    ∀ fuel i j, rotScan exh cur len i fuel = some j →
      ∃ d, d < fuel ∧ j = (cur + 1 + (i + d)) % len ∧ j ∉ exh ∧
        ∀ d', d' < d → (cur + 1 + (i + d')) % len ∈ exh := by
  intro fuel
  induction fuel with
  | zero => intro i j h; simp [rotScan] at h
  | succ f ih =>
    intro i j h
    by_cases hm : (cur + 1 + i) % len ∈ exh
    · rw [rotScan, if_pos hm] at h
      obtain ⟨d, hd, hj, hnot, hfirst⟩ := ih (i + 1) j h
      refine ⟨d + 1, by omega, ?_, hnot, ?_⟩
      · have heq : i + 1 + d = i + (d + 1) := by omega
        rw [heq] at hj
        exact hj
      · intro d' hd'
        cases d' with
        | zero => simpa using hm
        | succ d'' =>
          have hh := hfirst d'' (by omega)
          have heq : i + 1 + d'' = i + (d'' + 1) := by omega
          rw [heq] at hh
          exact hh
    · rw [rotScan, if_neg hm, Option.some.injEq] at h
      refine ⟨0, by omega, by simpa using h.symm, ?_, by omega⟩
      rw [← h]
      exact hm

theorem residue_hit (cur len j : Nat) (hlen : 0 < len) (hj : j < len) :
    ∃ d, d < len ∧ (cur + 1 + d) % len = j := by
  refine ⟨(j + len - (cur + 1) % len) % len, Nat.mod_lt _ hlen, ?_⟩
  rw [Nat.add_mod_mod]
  have ha : (cur + 1) % len < len := Nat.mod_lt _ hlen
  have hq : len * ((cur + 1) / len) + (cur + 1) % len = cur + 1 :=
    Nat.div_add_mod (cur + 1) len
  have hstep : cur + 1 + (j + len - (cur + 1) % len)
      = len * ((cur + 1) / len + 1) + j := by
    rw [Nat.mul_add, Nat.mul_one]
    generalize len * ((cur + 1) / len) = m at hq ⊢
    omega
  rw [hstep, Nat.mul_add_mod]
  exact Nat.mod_eq_of_lt hj

theorem rotateToNext_found (km : ApiKeyManager) (hlen : 0 < km.keys.length)
    (hex : ∃ j, j < km.keys.length ∧ j ∉ km.exhaustedKeys) :
    (km.rotateToNext).1 = true ∧
    (km.rotateToNext).2.keys = km.keys ∧
    (km.rotateToNext).2.exhaustedKeys = km.exhaustedKeys ∧
    (km.rotateToNext).2.currentIndex < km.keys.length ∧
    (km.rotateToNext).2.currentIndex ∉ km.exhaustedKeys ∧
    ∃ d, d < km.keys.length ∧
      (km.rotateToNext).2.currentIndex
        = (km.currentIndex + 1 + d) % km.keys.length ∧
      ∀ d', d' < d → (km.currentIndex + 1 + d') % km.keys.length ∈ km.exhaustedKeys := by
  obtain ⟨j, hj, hjx⟩ := hex
  cases hscan : rotScan km.exhaustedKeys km.currentIndex km.keys.length 0 km.keys.length with
  | none =>
    exfalso
    have hall := (rotScan_eq_none _ _).mp hscan
    obtain ⟨d, hd, hdj⟩ := residue_hit km.currentIndex km.keys.length j hlen hj
    have hmem := hall d hd
    rw [Nat.zero_add, hdj] at hmem
    exact hjx hmem
  | some v =>
    obtain ⟨d, hd, hv, hnot, hfirst⟩ := rotScan_eq_some _ _ _ hscan
    rw [Nat.zero_add] at hv
    unfold ApiKeyManager.rotateToNext
    rw [hscan]
    refine ⟨rfl, rfl, rfl, ?_, hnot, d, hd, hv, ?_⟩
    · rw [hv]
      exact Nat.mod_lt _ hlen
    · intro d' hd'
      have hh := hfirst d' hd'
      rw [Nat.zero_add] at hh
      exact hh

theorem rotateToNext_stuck (km : ApiKeyManager)
    (hall : ∀ j, j < km.keys.length → j ∈ km.exhaustedKeys) :
    km.rotateToNext = (false, km) := by
  have hscan : rotScan km.exhaustedKeys km.currentIndex km.keys.length 0 km.keys.length
      = none := by
    rw [rotScan_eq_none]
    intro d hd
    exact hall _ (Nat.mod_lt _ (by omega))
  unfold ApiKeyManager.rotateToNext
  rw [hscan]

theorem markExhausted_found (km : ApiKeyManager) (hlen : 0 < km.keys.length)
    (hex : ∃ j, j < km.keys.length ∧ j ∉ insert km.currentIndex km.exhaustedKeys) :
    (km.markExhausted).1 = true ∧
    (km.markExhausted).2.keys = km.keys ∧
    (km.markExhausted).2.exhaustedKeys = insert km.currentIndex km.exhaustedKeys ∧
    (km.markExhausted).2.currentIndex < km.keys.length ∧
    (km.markExhausted).2.currentIndex ∉ insert km.currentIndex km.exhaustedKeys := by
  have h := rotateToNext_found
    { km with exhaustedKeys := insert km.currentIndex km.exhaustedKeys } hlen hex
  exact ⟨h.1, h.2.1, h.2.2.1, h.2.2.2.1, h.2.2.2.2.1⟩

theorem markExhausted_stuck (km : ApiKeyManager)
    (hall : ∀ j, j < km.keys.length → j ∈ insert km.currentIndex km.exhaustedKeys) :
    km.markExhausted
      = (false, { km with exhaustedKeys := insert km.currentIndex km.exhaustedKeys }) :=
  rotateToNext_stuck { km with exhaustedKeys := insert km.currentIndex km.exhaustedKeys } hall

theorem exists_unexhausted {exh : Finset Nat} {len : Nat}
    (_hsub : exh ⊆ Finset.range len) (hcard : exh.card < len) :
    ∃ j, j < len ∧ j ∉ exh := by
  by_contra h
  push_neg at h
  have hsub2 : Finset.range len ⊆ exh := fun j hj => h j (Finset.mem_range.mp hj)
  have hc := Finset.card_le_card hsub2
  rw [Finset.card_range] at hc
  omega

theorem iterMark_card : ∀ (k : Nat) (km : ApiKeyManager),
    km.currentIndex < km.keys.length →
    km.exhaustedKeys ⊆ Finset.range km.keys.length →
    (km.exhaustedKeys.card < km.keys.length → km.currentIndex ∉ km.exhaustedKeys) →
    km.exhaustedKeys.card + k ≤ km.keys.length →
    (iterMark k km).keys = km.keys ∧
    (iterMark k km).exhaustedKeys.card = km.exhaustedKeys.card + k := by
  intro k
  induction k with
  | zero => intro km _ _ _ _; exact ⟨rfl, rfl⟩
  | succ n ih =>
    intro km hcur hsub hfresh hbound
    have hcard_lt : km.exhaustedKeys.card < km.keys.length := by omega
    have hnotmem : km.currentIndex ∉ km.exhaustedKeys := hfresh hcard_lt
    have hcard' : (insert km.currentIndex km.exhaustedKeys).card
        = km.exhaustedKeys.card + 1 := Finset.card_insert_of_not_mem hnotmem
    have hsub' : insert km.currentIndex km.exhaustedKeys
        ⊆ Finset.range km.keys.length := by
      intro j hj
      rcases Finset.mem_insert.mp hj with h | h
      · exact h ▸ Finset.mem_range.mpr hcur
      · exact hsub h
    show (iterMark n (km.markExhausted).2).keys = km.keys ∧
      (iterMark n (km.markExhausted).2).exhaustedKeys.card
        = km.exhaustedKeys.card + (n + 1)
    by_cases hrem : (insert km.currentIndex km.exhaustedKeys).card < km.keys.length
    · have hex := exists_unexhausted hsub' hrem
      obtain ⟨_, hkeys, hexh, hidx, hnm⟩ := markExhausted_found km (by omega) hex
      have h1' : (km.markExhausted).2.currentIndex < (km.markExhausted).2.keys.length := by
        rw [hkeys]; exact hidx
      have h2' : (km.markExhausted).2.exhaustedKeys
          ⊆ Finset.range (km.markExhausted).2.keys.length := by
        rw [hkeys, hexh]; exact hsub'
      have h3' : (km.markExhausted).2.exhaustedKeys.card < (km.markExhausted).2.keys.length →
          (km.markExhausted).2.currentIndex ∉ (km.markExhausted).2.exhaustedKeys := by
        intro _
        rw [hexh]
        exact hnm
      have h4' : (km.markExhausted).2.exhaustedKeys.card + n
          ≤ (km.markExhausted).2.keys.length := by
        rw [hkeys, hexh, hcard']
        omega
      obtain ⟨hk, hc⟩ := ih (km.markExhausted).2 h1' h2' h3' h4'
      refine ⟨by rw [hk, hkeys], ?_⟩
      rw [hc, hexh, hcard']
      omega
    · have hall : ∀ j, j < km.keys.length → j ∈ insert km.currentIndex km.exhaustedKeys := by
        have heq : insert km.currentIndex km.exhaustedKeys
            = Finset.range km.keys.length :=
          Finset.eq_of_subset_of_card_le hsub' (by rw [Finset.card_range]; omega)
        intro j hj
        rw [heq]
        exact Finset.mem_range.mpr hj
      have hn : n = 0 := by omega
      subst hn
      rw [markExhausted_stuck km hall]
      refine ⟨rfl, ?_⟩
      show (insert km.currentIndex km.exhaustedKeys).card = km.exhaustedKeys.card + (0 + 1)
      omega

theorem rotateToNext_bounds (km : ApiKeyManager) (h : km.currentIndex < km.keys.length) :
    (km.rotateToNext).2.keys = km.keys ∧
    (km.rotateToNext).2.exhaustedKeys = km.exhaustedKeys ∧
    (km.rotateToNext).2.currentIndex < km.keys.length := by
  unfold ApiKeyManager.rotateToNext
  cases hscan : rotScan km.exhaustedKeys km.currentIndex km.keys.length 0 km.keys.length with
  | none => exact ⟨rfl, rfl, h⟩
  | some v =>
    obtain ⟨d, _, hv, _, _⟩ := rotScan_eq_some _ _ _ hscan
    refine ⟨rfl, rfl, ?_⟩
    show v < km.keys.length
    rw [hv]
    exact Nat.mod_lt _ (by omega)

theorem markExhausted_bounds (km : ApiKeyManager) (h : km.currentIndex < km.keys.length) :
    (km.markExhausted).2.keys = km.keys ∧
    (km.markExhausted).2.exhaustedKeys = insert km.currentIndex km.exhaustedKeys ∧
    (km.markExhausted).2.currentIndex < km.keys.length :=
  rotateToNext_bounds { km with exhaustedKeys := insert km.currentIndex km.exhaustedKeys } h

theorem applyOps_bounds : ∀ (ops : List RotOp) (km : ApiKeyManager),
    km.currentIndex < km.keys.length →
    (applyOps ops km).keys = km.keys ∧
    (applyOps ops km).currentIndex < km.keys.length := by
  intro ops
  induction ops with
  | nil => intro km h; exact ⟨rfl, h⟩
  | cons op rest ih =>
    intro km h
    have hstep : (applyOp km op).keys = km.keys ∧
        (applyOp km op).currentIndex < km.keys.length := by
      cases op with
      | mark =>
        obtain ⟨hk, _, hi⟩ := markExhausted_bounds km h
        exact ⟨hk, hi⟩
      | rot =>
        obtain ⟨hk, _, hi⟩ := rotateToNext_bounds km h
        exact ⟨hk, hi⟩
    obtain ⟨hk, hi⟩ := hstep
    have hrec := ih (applyOp km op) (by rw [hk]; exact hi)
    obtain ⟨hk2, hi2⟩ := hrec
    show (applyOps rest (applyOp km op)).keys = km.keys ∧
      (applyOps rest (applyOp km op)).currentIndex < km.keys.length
    rw [hk2, hk]
    exact ⟨rfl, by rw [← hk]; exact hi2⟩

theorem getD_mem_of_lt : ∀ (l : List String) (n : Nat), n < l.length → l.getD n "" ∈ l := by
  intro l
  induction l with
  | nil => intro n h; simp at h
  | cons a rest ih =>
    intro n h
    cases n with
    | zero => simp
    | succ m =>
      have hm := ih m (by simpa using h)
      simp only [List.getD_cons_succ]
      exact List.mem_cons_of_mem _ hm

theorem markExhausted_success (km : ApiKeyManager) (h : (km.markExhausted).1 = true) :
    (km.markExhausted).2.keys = km.keys ∧
    (km.markExhausted).2.exhaustedKeys = insert km.currentIndex km.exhaustedKeys ∧
    (km.markExhausted).2.currentIndex ∉ insert km.currentIndex km.exhaustedKeys ∧
    (0 < km.keys.length → (km.markExhausted).2.currentIndex < km.keys.length) := by
  unfold ApiKeyManager.markExhausted ApiKeyManager.rotateToNext at h ⊢
  cases hscan : rotScan (insert km.currentIndex km.exhaustedKeys) km.currentIndex
      km.keys.length 0 km.keys.length with
  | none =>
    rw [hscan] at h
    simp at h
  | some v =>
    obtain ⟨d, _, hv, hnot, _⟩ := rotScan_eq_some _ _ _ hscan
    refine ⟨rfl, rfl, ?_, ?_⟩
    · show v ∉ insert km.currentIndex km.exhaustedKeys
      exact hnot
    · intro hlen
      show v < km.keys.length
      rw [hv]
      exact Nat.mod_lt _ (by omega)

theorem requestLoop_calls_le (oracle : Nat → Outcome) :
    ∀ fuel attempt km, (requestLoop oracle fuel attempt km).calls ≤ fuel := by
  intro fuel
  induction fuel with
  | zero => intro a km; simp [requestLoop]
  | succ f ih =>
    intro a km
    by_cases hx : km.allExhausted = true
    · simp [requestLoop, hx]
    · cases ho : oracle a with
      | ok v => simp [requestLoop, hx, ho]
      | quota =>
        by_cases hr : (km.markExhausted).1 = true
        · have := ih (a + 1) (km.markExhausted).2
          simp [requestLoop, hx, ho, hr]
          omega
        · simp [requestLoop, hx, ho, hr]
      | other e =>
        by_cases hf : f = 0
        · simp [requestLoop, hx, ho, hf]
        · have := ih (a + 1) km
          simp [requestLoop, hx, ho, hf]
          omega

theorem requestLoop_other (oracle : Nat → Outcome) (es : Nat → String)
    (hor : ∀ n, oracle n = .other (es n)) :
    ∀ fuel attempt km, km.allExhausted = false → 0 < fuel →
      requestLoop oracle fuel attempt km
        = ⟨.error (es (attempt + fuel - 1)), fuel,
            List.replicate fuel km.currentIndex, km⟩ := by
  intro fuel
  induction fuel with
  | zero => intro a km _ h; omega
  | succ f ih =>
    intro a km hx _
    simp only [requestLoop, hx, Bool.false_eq_true, if_false, hor a]
    by_cases hf : f = 0
    · subst hf
      simp
    · simp only [hf, if_false]
      rw [ih (a + 1) km hx (by omega)]
      have harith : a + 1 + f - 1 = a + (f + 1) - 1 := by omega
      simp only [harith, List.replicate_succ]

theorem requestLoop_quota_nodup (oracle : Nat → Outcome)
    (hq : ∀ n, oracle n = .quota) :
    ∀ fuel attempt km,
      km.currentIndex ∉ km.exhaustedKeys →
      km.currentIndex < km.keys.length →
      km.exhaustedKeys ⊆ Finset.range km.keys.length →
      (requestLoop oracle fuel attempt km).usedIndices.Nodup ∧
      ∀ j ∈ (requestLoop oracle fuel attempt km).usedIndices, j ∉ km.exhaustedKeys := by
  intro fuel
  induction fuel with
  | zero => intro a km _ _ _; simp [requestLoop]
  | succ f ih =>
    intro a km hni hcur hsub
    simp only [requestLoop, hq a]
    by_cases hx : km.allExhausted = true
    · simp [hx]
    · simp only [hx, Bool.false_eq_true, if_false]
      by_cases hr : (km.markExhausted).1 = true
      · simp only [hr, if_true]
        obtain ⟨hkeys, hexh, hnm, hlt⟩ := markExhausted_success km hr
        have hni' : (km.markExhausted).2.currentIndex ∉ (km.markExhausted).2.exhaustedKeys := by
          rw [hexh]
          exact hnm
        have hcur' : (km.markExhausted).2.currentIndex < (km.markExhausted).2.keys.length := by
          rw [hkeys]
          exact hlt (by omega)
        have hsub' : (km.markExhausted).2.exhaustedKeys
            ⊆ Finset.range (km.markExhausted).2.keys.length := by
          rw [hkeys, hexh]
          intro j hj
          rcases Finset.mem_insert.mp hj with h | h
          · exact h ▸ Finset.mem_range.mpr hcur
          · exact hsub h
        obtain ⟨hnd, hall⟩ := ih (a + 1) (km.markExhausted).2 hni' hcur' hsub'
        constructor
        · refine List.nodup_cons.mpr ⟨?_, hnd⟩
          intro hmem
          have := hall _ hmem
          rw [hexh] at this
          exact this (Finset.mem_insert_self _ _)
        · intro j hj
          rcases List.mem_cons.mp hj with h | h
          · exact h ▸ hni
          · have := hall _ h
            rw [hexh] at this
            intro hje
            exact this (Finset.mem_insert_of_mem hje)
      · simp only [hr, if_false]
        constructor
        · exact List.nodup_singleton _
        · intro j hj
          rcases List.mem_singleton.mp hj with h
          exact h ▸ hni

theorem youtubeRequest_exhausted (oracle : Nat → Outcome) (km : ApiKeyManager)
    (hlen : 0 < km.keys.length) (hex : km.allExhausted = true) :
    (youtubeRequest oracle km).result = .error "ALL_KEYS_EXHAUSTED" ∧
    (youtubeRequest oracle km).calls = 0 := by
  unfold youtubeRequest
  obtain ⟨m, hm⟩ : ∃ m, km.keys.length = m + 1 := ⟨km.keys.length - 1, by omega⟩
  rw [hm]
  simp [requestLoop, hex]

/-- C1: for a credential pool of size N, after N consecutive quota-exceeded
signals (each one a `markExhausted` call, which rotates), `allExhausted`
reports true, and any subsequent `youtubeRequest` fails immediately with the
`ALL_KEYS_EXHAUSTED` error having performed zero remote calls. -/
theorem claim_C1_exhaustion_after_N_signals (keys : List String) (hne : keys ≠ []) :
    (iterMark keys.length (freshManager keys)).allExhausted = true ∧
    ∀ oracle : Nat → Outcome,
      (youtubeRequest oracle (iterMark keys.length (freshManager keys))).result
        = .error "ALL_KEYS_EXHAUSTED" ∧
      (youtubeRequest oracle (iterMark keys.length (freshManager keys))).calls = 0 := by
  have hlen : 0 < keys.length := List.length_pos.mpr hne
  have hinv := iterMark_card keys.length (freshManager keys) hlen
    (by intro j hj; simp [freshManager] at hj)
    (by intro _; simp [freshManager])
    (by simp [freshManager])
  obtain ⟨hkeys, hcard⟩ := hinv
  have hx : (iterMark keys.length (freshManager keys)).allExhausted = true := by
    unfold ApiKeyManager.allExhausted
    rw [hkeys, hcard]
    simp [freshManager]
  refine ⟨hx, fun oracle => ?_⟩
  exact youtubeRequest_exhausted oracle _ (by rw [hkeys]; exact hlen) hx

theorem claim_C1_witness :
    (iterMark 2 (freshManager ["k1", "k2"])).allExhausted = true ∧
    (youtubeRequest (fun _ => Outcome.quota)
      (iterMark 2 (freshManager ["k1", "k2"]))).calls = 0 := by
  have h := claim_C1_exhaustion_after_N_signals ["k1", "k2"] (by decide)
  exact ⟨h.1, (h.2 (fun _ => Outcome.quota)).2⟩

/-- C2: the retry policy of `youtubeRequest`.  (1) The number of remote
calls of one logical request never exceeds the pool size.  (2) If every
attempt fails with a non-quota error, the loop retries up to exactly the
pool size without any rotation or marking (the manager state is returned
unchanged, every fetch uses the same current key) and propagates the error
of the final attempt unchanged.  (3) If every attempt fails with a
quota-exceeded signal, each rotation moves to an untried credential, so the
key indices used are pairwise distinct: each credential is tried at most
once per logical request. -/
theorem claim_C2_retry_policy (km : ApiKeyManager) (oracle : Nat → Outcome) :
    (youtubeRequest oracle km).calls ≤ km.keys.length ∧
    (∀ es : Nat → String, (∀ n, oracle n = .other (es n)) →
      km.allExhausted = false → 0 < km.keys.length →
      youtubeRequest oracle km
        = ⟨.error (es (km.keys.length - 1)), km.keys.length,
            List.replicate km.keys.length km.currentIndex, km⟩) ∧
    ((∀ n, oracle n = .quota) → km.exhaustedKeys = ∅ →
      km.currentIndex < km.keys.length →
      (youtubeRequest oracle km).usedIndices.Nodup) := by
  refine ⟨requestLoop_calls_le oracle km.keys.length 0 km, ?_, ?_⟩
  · intro es hes hx hlen
    unfold youtubeRequest
    rw [requestLoop_other oracle es hes km.keys.length 0 km hx hlen]
    have harith : 0 + km.keys.length - 1 = km.keys.length - 1 := by omega
    rw [harith]
  · intro hq hemp hcur
    unfold youtubeRequest
    exact (requestLoop_quota_nodup oracle hq km.keys.length 0 km
      (by simp [hemp]) hcur (by simp [hemp])).1

theorem claim_C2_witness :
    (youtubeRequest (fun _ => Outcome.quota)
      { keys := ["k1", "k2"], currentIndex := 0, exhaustedKeys := ∅ }).usedIndices.Nodup ∧
    youtubeRequest (fun _ => Outcome.other "API Error 500: boom")
        { keys := ["k1", "k2"], currentIndex := 0, exhaustedKeys := ∅ }
      = ⟨.error "API Error 500: boom", 2, List.replicate 2 0,
          { keys := ["k1", "k2"], currentIndex := 0, exhaustedKeys := ∅ }⟩ := by
  constructor
  · exact (claim_C2_retry_policy
      { keys := ["k1", "k2"], currentIndex := 0, exhaustedKeys := ∅ }
      (fun _ => Outcome.quota)).2.2 (fun _ => rfl) rfl (by decide)
  · exact (claim_C2_retry_policy
      { keys := ["k1", "k2"], currentIndex := 0, exhaustedKeys := ∅ }
      (fun _ => Outcome.other "API Error 500: boom")).2.1
      (fun _ => "API Error 500: boom") (fun _ => rfl) (by decide) (by decide)

/-- C9: rotator invariants.  (1) Under any sequence of `markExhausted` and
`rotateToNext` operations the current index stays within the pool bounds
and `currentKey` is a credential of the pool.  (2) When at least one
credential is unexhausted, `rotateToNext` returns true and moves the
current index to the first unexhausted index in circular order after the
current position.  (3) When every credential is exhausted, it returns false
and leaves the state unchanged. -/
theorem claim_C9_rotator_invariants (km : ApiKeyManager) (hne : km.keys ≠ [])
    (hcur : km.currentIndex < km.keys.length) :
    (∀ ops : List RotOp,
      (applyOps ops km).currentIndex < km.keys.length ∧
      (applyOps ops km).keys = km.keys ∧
      (applyOps ops km).currentKey ∈ km.keys) ∧
    ((∃ j, j < km.keys.length ∧ j ∉ km.exhaustedKeys) →
      (km.rotateToNext).1 = true ∧
      (km.rotateToNext).2.currentIndex ∉ km.exhaustedKeys ∧
      ∃ d, d < km.keys.length ∧
        (km.rotateToNext).2.currentIndex
          = (km.currentIndex + 1 + d) % km.keys.length ∧
        ∀ d', d' < d → (km.currentIndex + 1 + d') % km.keys.length ∈ km.exhaustedKeys) ∧
    ((∀ j, j < km.keys.length → j ∈ km.exhaustedKeys) →
      km.rotateToNext = (false, km)) := by
  refine ⟨?_, ?_, rotateToNext_stuck km⟩
  · intro ops
    obtain ⟨hk, hi⟩ := applyOps_bounds ops km hcur
    refine ⟨hi, hk, ?_⟩
    unfold ApiKeyManager.currentKey
    rw [hk]
    exact getD_mem_of_lt km.keys _ hi
  · intro hex
    have hlen : 0 < km.keys.length := List.length_pos.mpr hne
    have h := rotateToNext_found km hlen hex
    exact ⟨h.1, h.2.2.2.2.1, h.2.2.2.2.2⟩

theorem claim_C9_witness :
    ((applyOps [RotOp.mark, RotOp.rot]
        { keys := ["k1", "k2"], currentIndex := 0, exhaustedKeys := ∅ }).currentIndex < 2) ∧
    ((({ keys := ["k1", "k2"], currentIndex := 0,
          exhaustedKeys := {0} } : ApiKeyManager).rotateToNext).1 = true) ∧
    (({ keys := ["k1", "k2"], currentIndex := 0,
          exhaustedKeys := {0, 1} } : ApiKeyManager).rotateToNext
      = (false, { keys := ["k1", "k2"], currentIndex := 0, exhaustedKeys := {0, 1} })) := by
  refine ⟨?_, ?_, ?_⟩
  · exact ((claim_C9_rotator_invariants
      { keys := ["k1", "k2"], currentIndex := 0, exhaustedKeys := ∅ }
      (by decide) (by decide)).1 [RotOp.mark, RotOp.rot]).1
  · exact ((claim_C9_rotator_invariants
      { keys := ["k1", "k2"], currentIndex := 0, exhaustedKeys := {0} }
      (by decide) (by decide)).2.1 ⟨1, by decide, by decide⟩).1
  · refine (claim_C9_rotator_invariants
      { keys := ["k1", "k2"], currentIndex := 0, exhaustedKeys := {0, 1} }
      (by decide) (by decide)).2.2 ?_
    intro j hj
    have hj2 : j = 0 ∨ j = 1 := by
      have hj' : j < 2 := hj
      omega
    rcases hj2 with rfl | rfl <;> decide

/-- C3: the change decision sets `changed` iff the remote member count
differs from the locally stored count or the title or thumbnail differs,
and sets `full` iff the member count differs; in particular local count 10
vs remote 12 gives `{changed: true, full: true}`, equal counts with a
differing title give `{changed: true, full: false}`, and identical
snapshots give `{changed: false}`. -/
theorem claim_C3_change_detection :
    (∀ (localCount : Nat) (t th : String) (remote : RemoteSnapshot),
      ((detectChange localCount t th remote).changed = true ↔
        (remote.videoCount ≠ localCount ∨ remote.title ≠ t ∨ remote.thumbnail ≠ th)) ∧
      ((detectChange localCount t th remote).full = true ↔
        remote.videoCount ≠ localCount)) ∧
    detectChange 10 "T" "U"
        { id := "P", title := "T", thumbnail := "U", channelId := "C", videoCount := 12 }
      = { changed := true, full := true } ∧
    detectChange 10 "T" "U"
        { id := "P", title := "T2", thumbnail := "U", channelId := "C", videoCount := 10 }
      = { changed := true, full := false } ∧
    (detectChange 10 "T" "U"
        { id := "P", title := "T", thumbnail := "U", channelId := "C", videoCount := 10 }).changed
      = false := by
  refine ⟨?_, by decide, by decide, by decide⟩
  intro localCount t th remote
  constructor
  · simp only [detectChange, Bool.or_eq_true, bne_iff_ne, ne_eq]
    tauto
  · simp only [detectChange, bne_iff_ne, ne_eq]

theorem processItem_of_removed (item : RawItem)
    (h : isRemovedVideo item.title item.thumbnail = true) :
    processItem item = none := by
  unfold processItem
  cases hv : jsOrStr item.cdVideoId item.srVideoId with
  | none => rfl
  | some vid =>
    by_cases he : vid == ""
    · simp [he]
    · simp [he, h]

/-- C7: every raw item whose title is one of the removed sentinels, or that
has no thumbnail while its lowercased title contains `"private"`, is
excluded from the produced member sequence; consequently every video in the
output fails the drop condition, and in particular no output video is
titled exactly `Deleted video`. -/
theorem claim_C7_sentinel_filtering :
    (∀ item : RawItem, isRemovedVideo item.title item.thumbnail = true →
      processItem item = none) ∧
    (∀ (pages : List (List RawItem)) (v : Video), v ∈ collectVideos pages →
      isRemovedVideo v.title v.thumbnail = false ∧ v.title ≠ "Deleted video") := by
  refine ⟨processItem_of_removed, ?_⟩
  intro pages v hv
  unfold collectVideos at hv
  rw [List.mem_flatten] at hv
  obtain ⟨l, hl, hvl⟩ := hv
  rw [List.mem_map] at hl
  obtain ⟨page, _, hpage⟩ := hl
  rw [← hpage] at hvl
  rw [List.mem_filterMap] at hvl
  obtain ⟨item, _, hitem⟩ := hvl
  unfold processItem at hitem
  cases hj : jsOrStr item.cdVideoId item.srVideoId with
  | none => rw [hj] at hitem; exact absurd hitem (by simp)
  | some vid =>
    rw [hj] at hitem
    by_cases he : (vid == "") = true
    · simp [he] at hitem
    · by_cases hr : isRemovedVideo item.title item.thumbnail = true
      · simp [he, hr] at hitem
      · have hitem2 : some (⟨vid, item.title, item.description, item.publishedAt,
            item.thumbnail, "https://www.youtube.com/watch?v=" ++ vid⟩ : Video)
            = some v := by
          rw [← hitem]
          simp [he, hr]
        rw [Option.some.injEq] at hitem2
        subst hitem2
        refine ⟨Bool.eq_false_iff.mpr hr, ?_⟩
        show item.title ≠ "Deleted video"
        intro hdel
        apply hr
        rw [hdel]
        simp [isRemovedVideo]

theorem claim_C7_witness :
    processItem demoDeletedItem = none ∧
    (isRemovedVideo "Lesson 1" "tn" = false ∧ "Lesson 1" ≠ "Deleted video") := by
  constructor
  · exact claim_C7_sentinel_filtering.1 demoDeletedItem (by decide)
  · have h := claim_C7_sentinel_filtering.2 [[demoGoodItem]]
      { id := "v1", title := "Lesson 1", description := "d", date := "2024-01-01",
        thumbnail := "tn", url := "https://www.youtube.com/watch?v=v1" }
      (by decide)
    exact h

/-- C10: an entity updated via the full (count-changed) path persists a
stored count equal to the length of its persisted member sequence, i.e. the
number of members that survived sentinel filtering, which can be strictly
smaller than the remote-reported count; a metadata-only update keeps the
previously stored member sequence unchanged. -/
theorem claim_C10_persisted_count :
    (∀ (existing : StoredPlaylist) (details : RemoteSnapshot)
        (pages : List (List RawItem)),
      (buildUpdatedPlaylist existing details true pages).videoCount
        = (buildUpdatedPlaylist existing details true pages).videos.length ∧
      (buildUpdatedPlaylist existing details true pages).videos = collectVideos pages ∧
      (buildUpdatedPlaylist existing details false pages).videos = existing.videos ∧
      (buildUpdatedPlaylist existing details false pages).videoCount
        = details.videoCount) ∧
    (buildUpdatedPlaylist demoPlaylist
        { id := "P1", title := "T", thumbnail := "th", channelId := "C1", videoCount := 1 }
        true [[demoDeletedItem]]).videoCount
      < (1 : Nat) := by
  refine ⟨?_, by decide⟩
  intro existing details pages
  exact ⟨rfl, rfl, rfl, rfl⟩

theorem updateLoop_no_exhausted : ∀ outs : List UpdateOutcome,
    UpdateOutcome.exhausted ∉ outs →
    updateLoop outs = (outs.count .success, outs.count .failure, outs.length) := by
  intro outs
  induction outs with
  | nil => intro _; simp [updateLoop]
  | cons o rest ih =>
    intro h
    have ho : o ≠ UpdateOutcome.exhausted := fun he => h (he ▸ List.mem_cons_self _ _)
    have hrest : UpdateOutcome.exhausted ∉ rest := fun hm => h (List.mem_cons_of_mem _ hm)
    cases o with
    | success => simp [updateLoop, ih hrest, List.count_cons]
    | failure => simp [updateLoop, ih hrest, List.count_cons]
    | exhausted => exact absurd rfl ho

theorem updateLoop_exhausted_trunc : ∀ (pre post : List UpdateOutcome),
    UpdateOutcome.exhausted ∉ pre →
    updateLoop (pre ++ .exhausted :: post)
      = (pre.count .success, pre.count .failure, pre.length + 1) := by
  intro pre
  induction pre with
  | nil => intro post _; simp [updateLoop]
  | cons o rest ih =>
    intro post h
    have ho : o ≠ UpdateOutcome.exhausted := fun he => h (he ▸ List.mem_cons_self _ _)
    have hrest : UpdateOutcome.exhausted ∉ rest := fun hm => h (List.mem_cons_of_mem _ hm)
    cases o with
    | success => simp [updateLoop, ih post hrest, List.count_cons]
    | failure => simp [updateLoop, ih post hrest, List.count_cons]
    | exhausted => exact absurd rfl ho

/-- C6: in the Updating phase, an `ALL_KEYS_EXHAUSTED` error stops the
loop immediately — entities after it are never attempted — and the run
still reaches Reporting, whose summary keeps the successes completed so
far and the failures counted so far; any other per-entity error is counted
as failed and the loop continues, so without exhaustion every flagged
entity is attempted. -/
theorem claim_C6_exhaustion_truncates (pre post : List UpdateOutcome)
    (hpre : UpdateOutcome.exhausted ∉ pre) :
    runUpdatePhase (pre ++ .exhausted :: post)
      = { total := pre.length + 1 + post.length,
          updated := pre.count .success,
          failed := pre.count .failure,
          attempted := pre.length + 1 } ∧
    (∀ outs : List UpdateOutcome, UpdateOutcome.exhausted ∉ outs →
      runUpdatePhase outs
        = { total := outs.length, updated := outs.count .success,
            failed := outs.count .failure, attempted := outs.length }) := by
  constructor
  · unfold runUpdatePhase
    rw [updateLoop_exhausted_trunc pre post hpre]
    simp only [RunReport.mk.injEq, List.length_append, List.length_cons]
    refine ⟨by omega, trivial, trivial, trivial⟩
  · intro outs houts
    unfold runUpdatePhase
    rw [updateLoop_no_exhausted outs houts]

theorem claim_C6_witness :
    runUpdatePhase [UpdateOutcome.success, UpdateOutcome.failure,
        UpdateOutcome.exhausted, UpdateOutcome.success]
      = { total := 4, updated := 1, failed := 1, attempted := 3 } := by
  have h := (claim_C6_exhaustion_truncates [UpdateOutcome.success, UpdateOutcome.failure]
    [UpdateOutcome.success] (by decide)).1
  simpa using h

/-- C8 counterexample: when the scan phase aborts with all credentials
exhausted, the process exits with code 1 even though not a single entity
was flagged for update (`outcomes = []`), contradicting the claim that the
exit code is nonzero only when at least one entity was flagged, and that a
run with no flagged updates exits zero. -/
theorem claim_C8_counterexample : mainExitCode true [] = 1 ∧ mainExitCode true [] ≠ 0 := by
  constructor
  · rfl
  · decide

/-- C8 (amended): apart from a scan-phase abort on credential exhaustion —
which exits 1 with no flagged updates — the exit code is nonzero only when
at least one entity was flagged, at least one update failed, and zero
updates succeeded; every run whose scan completed exits zero when at least
one update succeeded or when nothing was flagged, and a scan-phase abort
always exits 1. -/
theorem claim_C8_exit_code (outcomes : List UpdateOutcome) :
    (mainExitCode false outcomes ≠ 0 →
      outcomes ≠ [] ∧ 0 < (updateLoop outcomes).2.1 ∧ (updateLoop outcomes).1 = 0) ∧
    (0 < (updateLoop outcomes).1 → mainExitCode false outcomes = 0) ∧
    mainExitCode false [] = 0 ∧
    mainExitCode true outcomes = 1 := by
  have hmain : mainExitCode false outcomes
      = if 0 < (updateLoop outcomes).2.1 ∧ (updateLoop outcomes).1 = 0 then 1 else 0 := rfl
  refine ⟨?_, ?_, by decide, rfl⟩
  · intro h
    rw [hmain] at h
    by_cases hc : 0 < (updateLoop outcomes).2.1 ∧ (updateLoop outcomes).1 = 0
    · refine ⟨?_, hc.1, hc.2⟩
      intro heq
      subst heq
      simp [updateLoop] at hc
    · rw [if_neg hc] at h
      exact absurd rfl h
  · intro hs
    have hc : ¬(0 < (updateLoop outcomes).2.1 ∧ (updateLoop outcomes).1 = 0) := by
      intro hc
      omega
    rw [hmain, if_neg hc]

theorem claim_C8_witness :
    ([UpdateOutcome.failure] ≠ [] ∧ 0 < (updateLoop [UpdateOutcome.failure]).2.1 ∧
      (updateLoop [UpdateOutcome.failure]).1 = 0) ∧
    mainExitCode false [UpdateOutcome.success, UpdateOutcome.failure] = 0 := by
  constructor
  · exact (claim_C8_exit_code [UpdateOutcome.failure]).1 (by decide)
  · exact (claim_C8_exit_code [UpdateOutcome.success, UpdateOutcome.failure]).2.1 (by decide)

theorem upsert_idem (e : IndexEntry) : ∀ arr, upsert e (upsert e arr) = upsert e arr := by
  intro arr
  induction arr with
  | nil => simp [upsert]
  | cons p rest ih =>
    by_cases h : (p.id == e.id) = true
    · simp [upsert, h]
    · simp [upsert, h, ih]

theorem mem_upsert_self (e : IndexEntry) : ∀ arr, e ∈ upsert e arr := by
  intro arr
  induction arr with
  | nil => simp [upsert]
  | cons p rest ih =>
    by_cases h : (p.id == e.id) = true
    · show e ∈ (if (p.id == e.id) = true then e :: rest else p :: upsert e rest)
      rw [if_pos h]
      exact List.mem_cons_self _ _
    · show e ∈ (if (p.id == e.id) = true then e :: rest else p :: upsert e rest)
      rw [if_neg h]
      exact List.mem_cons_of_mem _ ih

theorem updateCategory_main (e : IndexEntry) (fs : FsState) (cat c : String) :
    (updateCategory e fs cat).categoriesMain c =
      if c = cat then
        match fs.categoriesMain c with
        | some arr => some (upsert e arr)
        | none => none
      else fs.categoriesMain c := by
  unfold updateCategory
  by_cases hc : c = cat
  · subst hc
    rw [if_pos rfl]
    cases h : fs.categoriesMain c with
    | some arr => simp [setFileMap]
    | none =>
      cases hs : fs.categoriesSub c
      · exact h
      · exact h
  · rw [if_neg hc]
    cases h : fs.categoriesMain cat with
    | some arr => simp [setFileMap, hc]
    | none =>
      cases hs : fs.categoriesSub cat
      · rfl
      · rfl

theorem updateCategory_sub (e : IndexEntry) (fs : FsState) (cat c : String) :
    (updateCategory e fs cat).categoriesSub c =
      if c = cat ∧ fs.categoriesMain c = none then
        match fs.categoriesSub c with
        | some arr => some (upsert e arr)
        | none => none
      else fs.categoriesSub c := by
  unfold updateCategory
  by_cases hc : c = cat
  · subst hc
    cases h : fs.categoriesMain c with
    | some arr =>
      rw [if_neg (by simp [h])]
    | none =>
      rw [if_pos ⟨rfl, rfl⟩]
      cases hs : fs.categoriesSub c with
      | some arr => simp [setFileMap]
      | none => exact hs
  · rw [if_neg (fun hand => hc hand.1)]
    cases h : fs.categoriesMain cat with
    | some arr => rfl
    | none =>
      cases hs : fs.categoriesSub cat with
      | some arr => simp [setFileMap, hc]
      | none => rfl

theorem updateCategory_main_none (e : IndexEntry) (fs : FsState) (cat c : String) :
    ((updateCategory e fs cat).categoriesMain c = none) ↔ (fs.categoriesMain c = none) := by
  rw [updateCategory_main]
  by_cases hc : c = cat
  · rw [if_pos hc]
    cases h : fs.categoriesMain c <;> simp
  · rw [if_neg hc]

theorem updateCategory_other_fields (e : IndexEntry) (fs : FsState) (cat : String) :
    (updateCategory e fs cat).channelsFile = fs.channelsFile ∧
    (updateCategory e fs cat).channelFiles = fs.channelFiles ∧
    (updateCategory e fs cat).playlistsIndex = fs.playlistsIndex := by
  unfold updateCategory
  cases h0 : fs.categoriesMain cat
  · cases hs0 : fs.categoriesSub cat
    · exact ⟨rfl, rfl, rfl⟩
    · exact ⟨rfl, rfl, rfl⟩
  · exact ⟨rfl, rfl, rfl⟩

theorem foldCat_other_fields (e : IndexEntry) : ∀ (cats : List String) (fs : FsState),
    (cats.foldl (updateCategory e) fs).channelsFile = fs.channelsFile ∧
    (cats.foldl (updateCategory e) fs).channelFiles = fs.channelFiles ∧
    (cats.foldl (updateCategory e) fs).playlistsIndex = fs.playlistsIndex := by
  intro cats
  induction cats with
  | nil => intro fs; exact ⟨rfl, rfl, rfl⟩
  | cons c0 rest ih =>
    intro fs
    obtain ⟨h1, h2, h3⟩ := updateCategory_other_fields e fs c0
    obtain ⟨g1, g2, g3⟩ := ih (updateCategory e fs c0)
    exact ⟨g1.trans h1, g2.trans h2, g3.trans h3⟩

theorem foldCat_main (e : IndexEntry) : ∀ (cats : List String) (fs : FsState) (c : String),
    (cats.foldl (updateCategory e) fs).categoriesMain c =
      match fs.categoriesMain c with
      | some arr => some (if c ∈ cats then upsert e arr else arr)
      | none => none := by
  intro cats
  induction cats with
  | nil =>
    intro fs c
    cases h : fs.categoriesMain c <;> exact h
  | cons c0 rest ih =>
    intro fs c
    show (rest.foldl (updateCategory e) (updateCategory e fs c0)).categoriesMain c = _
    rw [ih, updateCategory_main]
    by_cases hc : c = c0
    · subst hc
      rw [if_pos rfl]
      cases h : fs.categoriesMain c with
      | none => simp
      | some arr =>
        by_cases hr : c ∈ rest
        · simp [hr, upsert_idem]
        · simp [hr]
    · rw [if_neg hc]
      cases h : fs.categoriesMain c with
      | none => simp
      | some arr => simp [List.mem_cons, hc]

theorem foldCat_sub (e : IndexEntry) : ∀ (cats : List String) (fs : FsState) (c : String),
    (cats.foldl (updateCategory e) fs).categoriesSub c =
      match fs.categoriesSub c with
      | some arr =>
        some (if c ∈ cats ∧ fs.categoriesMain c = none then upsert e arr else arr)
      | none => none := by
  intro cats
  induction cats with
  | nil =>
    intro fs c
    cases h : fs.categoriesSub c <;> exact h
  | cons c0 rest ih =>
    intro fs c
    show (rest.foldl (updateCategory e) (updateCategory e fs c0)).categoriesSub c = _
    rw [ih]
    simp only [updateCategory_main_none]
    rw [updateCategory_sub]
    by_cases hceq : c = c0
    · subst hceq
      by_cases hmn : fs.categoriesMain c = none
      · rw [if_pos ⟨rfl, hmn⟩]
        cases hs : fs.categoriesSub c with
        | none => simp
        | some arr =>
          by_cases hr : c ∈ rest
          · simp [hr, hmn, upsert_idem]
          · simp [hr, hmn, upsert_idem]
      · rw [if_neg (fun hand => hmn hand.2)]
        cases hs : fs.categoriesSub c with
        | none => simp
        | some arr => simp [hmn]
    · rw [if_neg (fun hand => hceq hand.1)]
      cases hs : fs.categoriesSub c with
      | none => simp
      | some arr =>
        by_cases hm : fs.categoriesMain c = none
        · simp [hm, List.mem_cons, hceq]
        · simp [hm]

theorem updateChannelIndex_other_fields (e : IndexEntry) (chId : String) (fs : FsState) :
    (updateChannelIndex e chId fs).channelsFile = fs.channelsFile ∧
    (updateChannelIndex e chId fs).categoriesMain = fs.categoriesMain ∧
    (updateChannelIndex e chId fs).categoriesSub = fs.categoriesSub ∧
    (updateChannelIndex e chId fs).playlistsIndex = fs.playlistsIndex := by
  unfold updateChannelIndex
  cases h : fs.channelFiles chId with
  | none => exact ⟨rfl, rfl, rfl, rfl⟩
  | some ch =>
    obtain ⟨pls⟩ := ch
    cases pls
    · exact ⟨rfl, rfl, rfl, rfl⟩
    · exact ⟨rfl, rfl, rfl, rfl⟩

theorem updateChannelIndex_channelFiles (e : IndexEntry) (chId : String) (fs : FsState)
    (c : String) :
    (updateChannelIndex e chId fs).channelFiles c =
      if c = chId then
        match fs.channelFiles chId with
        | some ch =>
          match ch.playlists with
          | some arr => some ⟨some (upsert e arr)⟩
          | none => some ch
        | none => none
      else fs.channelFiles c := by
  unfold updateChannelIndex
  by_cases hc : c = chId
  · subst hc
    rw [if_pos rfl]
    cases h : fs.channelFiles c with
    | none => exact h
    | some ch =>
      obtain ⟨pls⟩ := ch
      cases pls with
      | none => exact h
      | some arr => simp [setFileMap]
  · rw [if_neg hc]
    cases h : fs.channelFiles chId with
    | none => rfl
    | some ch =>
      obtain ⟨pls⟩ := ch
      cases pls with
      | none => rfl
      | some arr => simp [setFileMap, hc]

theorem updateUnifiedIndex_other_fields (e : IndexEntry) (fs : FsState) :
    (updateUnifiedIndex e fs).channelsFile = fs.channelsFile ∧
    (updateUnifiedIndex e fs).categoriesMain = fs.categoriesMain ∧
    (updateUnifiedIndex e fs).categoriesSub = fs.categoriesSub ∧
    (updateUnifiedIndex e fs).channelFiles = fs.channelFiles := by
  unfold updateUnifiedIndex
  cases h : fs.playlistsIndex
  · exact ⟨rfl, rfl, rfl, rfl⟩
  · exact ⟨rfl, rfl, rfl, rfl⟩

theorem updateUnifiedIndex_playlistsIndex (e : IndexEntry) (fs : FsState) :
    (updateUnifiedIndex e fs).playlistsIndex =
      match fs.playlistsIndex with
      | some arr => some (upsert e arr)
      | none => none := by
  unfold updateUnifiedIndex
  cases h : fs.playlistsIndex with
  | none => exact h
  | some arr => rfl

theorem updateIndexFiles_fields (pl : StoredPlaylist) (fs : FsState) :
    (updateIndexFiles pl fs).channelsFile = fs.channelsFile ∧
    (∀ c, (updateIndexFiles pl fs).categoriesMain c =
      match fs.categoriesMain c with
      | some arr => some (if c ∈ pl.categories then upsert (mkIndexEntry pl fs) arr else arr)
      | none => none) ∧
    (∀ c, (updateIndexFiles pl fs).categoriesSub c =
      match fs.categoriesSub c with
      | some arr =>
        some (if c ∈ pl.categories ∧ fs.categoriesMain c = none
          then upsert (mkIndexEntry pl fs) arr else arr)
      | none => none) ∧
    (∀ c, (updateIndexFiles pl fs).channelFiles c =
      if c = pl.channelId then
        match fs.channelFiles pl.channelId with
        | some ch =>
          match ch.playlists with
          | some arr => some ⟨some (upsert (mkIndexEntry pl fs) arr)⟩
          | none => some ch
        | none => none
      else fs.channelFiles c) ∧
    ((updateIndexFiles pl fs).playlistsIndex =
      match fs.playlistsIndex with
      | some arr => some (upsert (mkIndexEntry pl fs) arr)
      | none => none) := by
  have hdef : updateIndexFiles pl fs
      = updateUnifiedIndex (mkIndexEntry pl fs)
          (updateChannelIndex (mkIndexEntry pl fs) pl.channelId
            (pl.categories.foldl (updateCategory (mkIndexEntry pl fs)) fs)) := rfl
  obtain ⟨f1, f2, f3⟩ := foldCat_other_fields (mkIndexEntry pl fs) pl.categories fs
  obtain ⟨c1, c2, c3, c4⟩ := updateChannelIndex_other_fields (mkIndexEntry pl fs) pl.channelId
    (pl.categories.foldl (updateCategory (mkIndexEntry pl fs)) fs)
  obtain ⟨u1, u2, u3, u4⟩ := updateUnifiedIndex_other_fields (mkIndexEntry pl fs)
    (updateChannelIndex (mkIndexEntry pl fs) pl.channelId
      (pl.categories.foldl (updateCategory (mkIndexEntry pl fs)) fs))
  refine ⟨?_, ?_, ?_, ?_, ?_⟩
  · rw [hdef, u1, c1, f1]
  · intro c
    rw [hdef, u2, c2, foldCat_main]
  · intro c
    rw [hdef, u3, c3, foldCat_sub]
  · intro c
    rw [hdef, u4, updateChannelIndex_channelFiles, f2]
  · rw [hdef, updateUnifiedIndex_playlistsIndex, c4, f3]

/-- C5: index synchronization is idempotent: applying `updateIndexFiles`
twice with the same playlist yields exactly the same final file state as
applying it once — hence byte-equivalent file contents, since serializing
the same parsed value produces the same bytes. -/
theorem claim_C5_idempotent_sync (pl : StoredPlaylist) (fs : FsState) :
    updateIndexFiles pl (updateIndexFiles pl fs) = updateIndexFiles pl fs := by
  obtain ⟨hcf, hmain, hsub, hch, hpi⟩ := updateIndexFiles_fields pl fs
  obtain ⟨hcf2, hmain2, hsub2, hch2, hpi2⟩ :=
    updateIndexFiles_fields pl (updateIndexFiles pl fs)
  have he : mkIndexEntry pl (updateIndexFiles pl fs) = mkIndexEntry pl fs := by
    unfold mkIndexEntry
    rw [hcf]
  have hmn : ∀ c, ((updateIndexFiles pl fs).categoriesMain c = none) ↔
      (fs.categoriesMain c = none) := by
    intro c
    rw [hmain c]
    cases h : fs.categoriesMain c <;> simp
  apply FsState.ext
  · rw [hcf2, hcf]
  · funext c
    rw [hmain2 c, he, hmain c]
    cases h : fs.categoriesMain c with
    | none => simp
    | some arr =>
      by_cases hm : c ∈ pl.categories
      · simp [hm, upsert_idem]
      · simp [hm]
  · funext c
    rw [hsub2 c, he]
    simp only [hmn]
    rw [hsub c]
    cases h : fs.categoriesSub c with
    | none => simp
    | some arr =>
      by_cases hcond : c ∈ pl.categories ∧ fs.categoriesMain c = none
      · simp [hcond.1, hcond.2, upsert_idem]
      · simp [hcond]
  · funext c
    by_cases hc : c = pl.channelId
    · subst hc
      rw [hch2 pl.channelId, if_pos rfl, he, hch pl.channelId, if_pos rfl]
      cases hf : fs.channelFiles pl.channelId with
      | none => simp
      | some ch =>
        obtain ⟨pls⟩ := ch
        cases pls with
        | none => rfl
        | some arr => simp [upsert_idem]
    · rw [hch2 c, if_neg hc]
  · rw [hpi2, he, hpi]
    cases h : fs.playlistsIndex with
    | none => simp
    | some arr => simp [upsert_idem]

/-- C4 counterexample: `updateIndexFiles` upserts (replace-or-append), so an
existing index file that did not yet reference the entity is NOT left
untouched — here the unified index starts as an empty array with no entry
for `P1`, and after synchronization it has gained a new reference to `P1`.
This refutes the claim that "index files that did not yet reference the
entity are left untouched — no index file gains a new reference". -/
theorem claim_C4_counterexample :
    demoFs.playlistsIndex = some [] ∧
    (∀ p ∈ ([] : List IndexEntry), p.id ≠ demoPlaylist.id) ∧
    (updateIndexFiles demoPlaylist demoFs).playlistsIndex ≠ demoFs.playlistsIndex ∧
    ∃ arr, (updateIndexFiles demoPlaylist demoFs).playlistsIndex = some arr ∧
      ∃ p ∈ arr, p.id = demoPlaylist.id := by
  have hval : (updateIndexFiles demoPlaylist demoFs).playlistsIndex
      = some [mkIndexEntry demoPlaylist demoFs] := rfl
  refine ⟨rfl, by simp, ?_, ?_⟩
  · rw [hval]
    simp [demoFs]
  · exact ⟨[mkIndexEntry demoPlaylist demoFs], hval,
      mkIndexEntry demoPlaylist demoFs, List.mem_singleton_self _, rfl⟩

/-- C4 (amended): after synchronization of a changed entity, the updated
projection is upserted into exactly the targeted index files — the existing
category files of the entity's category labels (a main file wins over a sub
file), the parent channel file when it exists with a playlist array, and
the unified index when it exists.  Every targeted file contains the updated
projection afterwards, whether or not it referenced the entity before (a
targeted file with no matching entry gains an appended one).  All other
index files are left untouched. -/
theorem claim_C4_targeted_upsert (pl : StoredPlaylist) (fs : FsState) :
    (∀ c arr, c ∈ pl.categories → fs.categoriesMain c = some arr →
      ∃ arr2, (updateIndexFiles pl fs).categoriesMain c = some arr2 ∧
        mkIndexEntry pl fs ∈ arr2) ∧
    (∀ c arr, c ∈ pl.categories → fs.categoriesMain c = none →
      fs.categoriesSub c = some arr →
      ∃ arr2, (updateIndexFiles pl fs).categoriesSub c = some arr2 ∧
        mkIndexEntry pl fs ∈ arr2) ∧
    (∀ ch arr, fs.channelFiles pl.channelId = some ch → ch.playlists = some arr →
      ∃ arr2, (updateIndexFiles pl fs).channelFiles pl.channelId = some ⟨some arr2⟩ ∧
        mkIndexEntry pl fs ∈ arr2) ∧
    (∀ arr, fs.playlistsIndex = some arr →
      ∃ arr2, (updateIndexFiles pl fs).playlistsIndex = some arr2 ∧
        mkIndexEntry pl fs ∈ arr2) ∧
    (∀ c, c ∉ pl.categories →
      (updateIndexFiles pl fs).categoriesMain c = fs.categoriesMain c ∧
      (updateIndexFiles pl fs).categoriesSub c = fs.categoriesSub c) ∧
    (∀ ch, ch ≠ pl.channelId →
      (updateIndexFiles pl fs).channelFiles ch = fs.channelFiles ch) ∧
    (updateIndexFiles pl fs).channelsFile = fs.channelsFile := by
  obtain ⟨hcf, hmain, hsub, hch, hpi⟩ := updateIndexFiles_fields pl fs
  refine ⟨?_, ?_, ?_, ?_, ?_, ?_, hcf⟩
  · intro c arr hc harr
    refine ⟨upsert (mkIndexEntry pl fs) arr, ?_, mem_upsert_self _ _⟩
    rw [hmain c, harr]
    simp [hc]
  · intro c arr hc hnone harr
    refine ⟨upsert (mkIndexEntry pl fs) arr, ?_, mem_upsert_self _ _⟩
    rw [hsub c, harr]
    simp [hc, hnone]
  · intro ch arr hch2 hp
    obtain ⟨pls⟩ := ch
    have hp2 : pls = some arr := hp
    subst hp2
    refine ⟨upsert (mkIndexEntry pl fs) arr, ?_, mem_upsert_self _ _⟩
    rw [hch pl.channelId, if_pos rfl, hch2]
  · intro arr harr
    refine ⟨upsert (mkIndexEntry pl fs) arr, ?_, mem_upsert_self _ _⟩
    rw [hpi, harr]
  · intro c hc
    constructor
    · rw [hmain c]
      cases h : fs.categoriesMain c <;> simp [hc]
    · rw [hsub c]
      cases h : fs.categoriesSub c <;> simp [hc]
  · intro ch hc
    rw [hch ch, if_neg hc]

theorem claim_C4_witness :
    (∃ arr2, (updateIndexFiles demoPlaylist2 demoFs2).categoriesMain "prog" = some arr2 ∧
      mkIndexEntry demoPlaylist2 demoFs2 ∈ arr2) ∧
    (updateIndexFiles demoPlaylist2 demoFs2).channelFiles "other"
      = demoFs2.channelFiles "other" := by
  have h := claim_C4_targeted_upsert demoPlaylist2 demoFs2
  refine ⟨h.1 "prog" [staleEntry] (by decide) (by decide), ?_⟩
  exact h.2.2.2.2.2.1 "other" (by decide)
